import Mathlib

/-!
Verification of the account-data representation and decoding layer of the
`account-decoder-client-types` crate (src/account-decoder-client-types/src/lib.rs).

The Rust code is shallowly embedded:
* byte sequences are `List Nat` with every element `< 256`;
* the external `bs58` and `base64` crates are modelled by executable Lean
  functions `bs58Decode`/`bs58Encode` and `base64Decode`/`base64Encode`
  that implement the crates' documented algorithms (Bitcoin base58 big-number
  conversion, RFC 4648 standard base64 with mandatory canonical padding and
  rejection of non-zero trailing bits);
* the optional zstd decompression capability is an explicit parameter
  `zstd : List Nat → Option (List Nat)` threaded through `decode` and `space`,
  following the source's `#[cfg(feature = "zstd")]` pipeline where both
  functions feed the base64-decoded bytes through the same decompressor;
* `solana_pubkey::Pubkey::from_str` (an external collaborator crate) is
  modelled by `pubkeyFromStr`: base58-decode, length guard of 44 characters,
  and the decoded vector must be exactly 32 bytes;
* the generic `WritableAccount` factory is instantiated with the concrete
  record `Account`, mirroring `solana_account::Account::create`, which simply
  stores the five fields.
-/

namespace AgaveAccountDecoder

/-! ### Character alphabets of the bs58 and base64 crates -/

/-- The Bitcoin base58 alphabet used by the `bs58` crate's default decoder. -/
def BASE58_ALPHABET : List Char :=
  "123456789ABCDEFGHJKLMNPQRSTUVWXYZabcdefghijkmnopqrstuvwxyz".toList

/-- The standard base64 alphabet used by `BASE64_STANDARD`. -/
def BASE64_ALPHABET : List Char :=
  "ABCDEFGHIJKLMNOPQRSTUVWXYZabcdefghijklmnopqrstuvwxyz0123456789+/".toList

/-- Index of a character in a list, or `none`: the crates' decode tables. -/
def charIndex (c : Char) : List Char → Option Nat
  | [] => none
  | d :: ds => if d = c then some 0 else (charIndex c ds).map (· + 1)

/-- Value of one base58 digit character (`none` off the alphabet). -/
def b58Val (c : Char) : Option Nat := charIndex c BASE58_ALPHABET

/-- Character of one base58 digit value. -/
def b58Char (v : Nat) : Char := BASE58_ALPHABET.getD v '?'

/-- Value of one base64 digit character (`none` off the alphabet, in
particular for the padding character). -/
def b64Val (c : Char) : Option Nat := charIndex c BASE64_ALPHABET

/-- Character of one base64 digit value. -/
def b64Char (v : Nat) : Char := BASE64_ALPHABET.getD v '?'

/-! ### Little-endian base conversion, kernel-computable

`Nat.digits` is defined by well-founded recursion and does not reduce on
concrete numerals, so the embedding uses a fuel-based equivalent and a bridge
lemma to Mathlib's `Nat.digits` API. -/

/-- Fuel-based digit extraction; with fuel `≥ n` it agrees with `Nat.digits`. -/
def digitsLEAux (base : Nat) : Nat → Nat → List Nat
  | _, 0 => []
  | 0, _ + 1 => []
  | fuel + 1, n + 1 => ((n + 1) % base) :: digitsLEAux base fuel ((n + 1) / base)

/-- Little-endian digits of `n` in the given base (empty list for `0`). -/
def digitsLE (base n : Nat) : List Nat := digitsLEAux base n n

/-- Little-endian digit-list evaluation, the inverse of `digitsLE`. -/
def ofDigitsLE (base : Nat) : List Nat → Nat
  | [] => 0
  | d :: ds => d + base * ofDigitsLE base ds

/-! ### The bs58 crate: `bs58::decode(blob).into_vec()` and `bs58::encode`

The crate interprets the input as a big-endian base-58 numeral: every
character is looked up in the alphabet (failing on any other character,
including non-ASCII ones), the resulting value is re-emitted as big-endian
base-256 bytes, and one leading zero byte is produced per leading `'1'`
character of the input. -/

/-- Decode every character of the blob to its base58 value, big-endian;
`none` as soon as one character is off the alphabet. -/
def decodeB58Digits : List Char → Option (List Nat)
  | [] => some []
  | c :: cs =>
    match b58Val c, decodeB58Digits cs with
    | some v, some vs => some (v :: vs)
    | _, _ => none

/-- Number of leading `'1'` characters (each stands for one zero byte). -/
def countLeadingOnes : List Char → Nat
  | [] => 0
  | c :: cs => if c = '1' then countLeadingOnes cs + 1 else 0

/-- Big-endian base-256 bytes of a natural number (empty for `0`). -/
def natToBytesBE (n : Nat) : List Nat := (digitsLE 256 n).reverse

/-- The bs58 decoding pipeline on a character list. -/
def bs58DecodeChars (cs : List Char) : Option (List Nat) :=
  match decodeB58Digits cs with
  | none => none
  | some ds =>
      some (List.replicate (countLeadingOnes cs) 0 ++
        natToBytesBE (ofDigitsLE 58 ds.reverse))

/-- Model of `bs58::decode(blob).into_vec().ok()`. -/
def bs58Decode (s : String) : Option (List Nat) := bs58DecodeChars s.toList

/-- Number of leading zero bytes (each becomes one `'1'` character). -/
def countLeadingZeroBytes : List Nat → Nat
  | [] => 0
  | b :: bs => if b = 0 then countLeadingZeroBytes bs + 1 else 0

/-- The bs58 encoding pipeline on a byte list. -/
def bs58EncodeChars (b : List Nat) : List Char :=
  List.replicate (countLeadingZeroBytes b) '1' ++
    (digitsLE 58 (ofDigitsLE 256 b.reverse)).reverse.map b58Char

/-- Model of `bs58::encode(bytes).into_string()`. -/
def bs58Encode (b : List Nat) : String := String.mk (bs58EncodeChars b)

/-! ### The base64 crate: `BASE64_STANDARD.decode` / `.encode`

`BASE64_STANDARD` requires canonical padding (input length a multiple of
four, `=` only at the end) and rejects non-zero trailing bits in the final
partial group. -/

/-- Canonical standard-base64 decoding of a character list, four characters
at a time; padding is legal only in the last group and the unused low bits
of the final data character must be zero. -/
def b64DecodeChars : List Char → Option (List Nat)
  | [] => some []
  | c0 :: c1 :: c2 :: c3 :: rest =>
    match b64Val c0, b64Val c1 with
    | some v0, some v1 =>
      if c2 = '=' then
        if c3 = '=' ∧ rest = [] ∧ v1 % 16 = 0 then
          some [v0 * 4 + v1 / 16]
        else none
      else
        match b64Val c2 with
        | some v2 =>
          if c3 = '=' then
            if rest = [] ∧ v2 % 4 = 0 then
              some [v0 * 4 + v1 / 16, v1 % 16 * 16 + v2 / 4]
            else none
          else
            match b64Val c3, b64DecodeChars rest with
            | some v3, some tail =>
                some ((v0 * 4 + v1 / 16) :: (v1 % 16 * 16 + v2 / 4) ::
                  (v2 % 4 * 64 + v3) :: tail)
            | _, _ => none
        | none => none
    | _, _ => none
  | _ => none

/-- Model of `BASE64_STANDARD.decode(blob).ok()`. -/
def base64Decode (s : String) : Option (List Nat) := b64DecodeChars s.toList

/-- Standard base64 encoding of a byte list, three bytes at a time, with
mandatory `=` padding of a final partial group. -/
def b64EncodeBytes : List Nat → List Char
  | [] => []
  | [b0] => [b64Char (b0 / 4), b64Char (b0 % 4 * 16), '=', '=']
  | [b0, b1] =>
      [b64Char (b0 / 4), b64Char (b0 % 4 * 16 + b1 / 16),
        b64Char (b1 % 16 * 4), '=']
  | b0 :: b1 :: b2 :: rest =>
      b64Char (b0 / 4) :: b64Char (b0 % 4 * 16 + b1 / 16) ::
        b64Char (b1 % 16 * 4 + b2 / 64) :: b64Char (b2 % 64) ::
        b64EncodeBytes rest

/-- Model of `BASE64_STANDARD.encode(bytes)`. -/
def base64Encode (b : List Nat) : String := String.mk (b64EncodeBytes b)

/-! ### The data model of `lib.rs` -/

/-- An opaque structured document, modelling `serde_json::Value`; this layer
never inspects it (numbers are simplified to `Int`, which is irrelevant here
since the codec passes the document through unexamined). -/
inductive JsonValue where
  | null : JsonValue
  | bool (b : Bool) : JsonValue
  | num (n : Int) : JsonValue
  | str (s : String) : JsonValue
  | arr (elems : List JsonValue) : JsonValue
  | obj (fields : List (String × JsonValue)) : JsonValue

/-- `ParsedAccount`: program id, opaque parsed document, declared size. -/
structure ParsedAccount where
  program : String
  parsed : JsonValue
  space : Nat

/-- `UiAccountEncoding`. -/
inductive UiAccountEncoding where
  | binary : UiAccountEncoding
  | base58 : UiAccountEncoding
  | base64 : UiAccountEncoding
  | jsonParsed : UiAccountEncoding
  | base64Zstd : UiAccountEncoding
deriving DecidableEq

/-- `UiAccountData`: the three container shapes. -/
inductive UiAccountData where
  | legacyBinary (blob : String) : UiAccountData
  | json (parsed : ParsedAccount) : UiAccountData
  | binary (blob : String) (encoding : UiAccountEncoding) : UiAccountData

/-- A zstd decompression capability: `zstd::stream::read::Decoder` plus
`read_to_end`, returning all decompressed bytes or failing. It is a
parameter because the source selects it with `#[cfg(feature = "zstd")]`. -/
abbrev ZstdDecompress := List Nat → Option (List Nat)

/-- `UiAccountData::decode`: decoded account data in binary format if
possible. -/
def UiAccountData.decode (zstd : ZstdDecompress) : UiAccountData → Option (List Nat)
  | .json _ => none
  | .legacyBinary blob => bs58Decode blob
  | .binary blob encoding =>
    match encoding with
    | .base58 => bs58Decode blob
    | .base64 => base64Decode blob
    | .base64Zstd => (base64Decode blob).bind zstd
    | .binary => none
    | .jsonParsed => none

/-- `UiAccountData::space`: the account data size from the parsed
information if available. -/
def UiAccountData.space (zstd : ZstdDecompress) : UiAccountData → Option Nat
  | .json parsed => some parsed.space
  | .legacyBinary blob => (bs58Decode blob).map List.length
  | .binary blob encoding =>
    match encoding with
    | .base58 => (bs58Decode blob).map List.length
    | .base64 => (base64Decode blob).map List.length
    | .base64Zstd => ((base64Decode blob).bind zstd).map List.length
    | .binary => none
    | .jsonParsed => none

/-- `UiAccountData::is_json_parsed`. -/
def UiAccountData.isJsonParsed : UiAccountData → Bool
  | .json _ => true
  | _ => false

/-- `UiAccountData::as_parsed`. -/
def UiAccountData.asParsed : UiAccountData → Option ParsedAccount
  | .json parsed => some parsed
  | _ => none

/-- `UiAccount`: the duplicate representation of an account used for JSON
serialization. -/
structure UiAccount where
  lamports : Nat
  data : UiAccountData
  owner : String
  executable : Bool
  rentEpoch : Nat
  space : Option Nat

/-- Modelled from the spec and the `solana_pubkey` collaborator crate:
`Pubkey::from_str` rejects strings longer than 44 characters, base58-decodes
the rest and requires exactly 32 decoded bytes ("string → fixed-length
address, fails on malformed input"). -/
def pubkeyFromStr (s : String) : Option (List Nat) :=
  if s.length > 44 then none
  else
    match bs58Decode s with
    | none => none
    | some v => if v.length = 32 then some v else none

/-- A concrete account value, instantiating the `WritableAccount` factory
with `solana_account::Account`; `create` stores the five fields. -/
structure Account where
  lamports : Nat
  data : List Nat
  owner : List Nat
  executable : Bool
  rentEpoch : Nat
deriving DecidableEq

/-- `T::create(lamports, data, owner, executable, rent_epoch)`. -/
def Account.create (lamports : Nat) (data owner : List Nat)
    (executable : Bool) (rentEpoch : Nat) : Account :=
  ⟨lamports, data, owner, executable, rentEpoch⟩

/-- `UiAccount::decode`: strict mode. The source decodes the data first
(`self.data.decode()?`) and then parses the owner while building the
`T::create` argument list. -/
def UiAccount.decode (zstd : ZstdDecompress) (u : UiAccount) : Option Account :=
  match u.data.decode zstd with
  | none => none
  | some data =>
    match pubkeyFromStr u.owner with
    | none => none
    | some owner =>
        some (Account.create u.lamports data owner u.executable u.rentEpoch)

/-- `UiAccount::try_decode_with_fallback`: parses the owner first, then
either uses the decoded bytes (`wasStructured = false`), falls back to empty
data for the JsonParsed shape (`wasStructured = true`), or fails. -/
def UiAccount.tryDecodeWithFallback (zstd : ZstdDecompress) (u : UiAccount) :
    Option (Account × Bool) :=
  match pubkeyFromStr u.owner with
  | none => none
  | some owner =>
    match u.data.decode zstd with
    | some data =>
        some (Account.create u.lamports data owner u.executable u.rentEpoch, false)
    | none =>
        if u.data.isJsonParsed then
          some (Account.create u.lamports [] owner u.executable u.rentEpoch, true)
        else none

/-- `UiAccount::is_json_parsed`. -/
def UiAccount.isJsonParsed (u : UiAccount) : Bool := u.data.isJsonParsed

/-- `UiAccount::parsed_data`. -/
def UiAccount.parsedData (u : UiAccount) : Option ParsedAccount := u.data.asParsed

/-! ### Bridge lemmas between the fuel-based base conversion and Mathlib -/

theorem ofDigitsLE_eq_ofDigits (base : Nat) (L : List Nat) :
    ofDigitsLE base L = Nat.ofDigits base L := by
  induction L with
  | nil => simp [ofDigitsLE, Nat.ofDigits]
  | cons d ds ih => simp [ofDigitsLE, Nat.ofDigits_cons, ih]

theorem digitsLEAux_eq_digits (base : Nat) (hb : 2 ≤ base) :
    ∀ fuel n, n ≤ fuel → digitsLEAux base fuel n = Nat.digits base n
  | _, 0, _ => by cases ‹Nat› <;> simp [digitsLEAux]
  | 0, n + 1, h => absurd h (by omega)
  | fuel + 1, n + 1, h => by
    rw [digitsLEAux, Nat.digits_def' (by omega : 1 < base) (Nat.succ_pos n)]
    congr 1
    exact digitsLEAux_eq_digits base hb fuel ((n + 1) / base)
      (by have h2 : (n + 1) / base < n + 1 := Nat.div_lt_self (by omega) (by omega); omega)

theorem digitsLE_eq_digits (base n : Nat) (hb : 2 ≤ base) :
    digitsLE base n = Nat.digits base n :=
  digitsLEAux_eq_digits base hb n n le_rfl

/-! ### C1, C6, C9, C10: shape-level facts about `decode` and `space` -/

/-- C1: a `Structured` (`Json`) container always decodes to `none`, and its
`space` is `info.space` taken directly from the parsed information,
whatever the opaque document and program string are. -/
theorem structured_decode_none_space_direct (zstd : ZstdDecompress)
    (p : ParsedAccount) :
    (UiAccountData.json p).decode zstd = none ∧
    (UiAccountData.json p).space zstd = some p.space :=
  ⟨rfl, rfl⟩

/-- C6: an `Encoded` container with tag `Binary` or `JsonParsed` decodes to
`none` for every blob. -/
theorem encoded_binary_jsonparsed_decode_none (zstd : ZstdDecompress)
    (blob : String) :
    (UiAccountData.binary blob UiAccountEncoding.binary).decode zstd = none ∧
    (UiAccountData.binary blob UiAccountEncoding.jsonParsed).decode zstd = none :=
  ⟨rfl, rfl⟩

/-- C9: changing only the snapshot's top-level declared `space` field leaves
`decode`, `try_decode_with_fallback` and the data container's `space`
unchanged: the field is never consulted. -/
theorem declared_space_never_consulted (zstd : ZstdDecompress) (u : UiAccount)
    (s : Option Nat) :
    UiAccount.decode zstd { u with space := s } = UiAccount.decode zstd u ∧
    UiAccount.tryDecodeWithFallback zstd { u with space := s } =
      UiAccount.tryDecodeWithFallback zstd u ∧
    ({ u with space := s } : UiAccount).data.space zstd = u.data.space zstd :=
  ⟨rfl, rfl, rfl⟩

/-- C10: the empty blob decodes to the empty byte sequence (not a failure)
for `LegacyBinary` and for `Encoded` with tag `Base58` or `Base64`, and the
corresponding `space` is `0`. -/
theorem empty_blob_decodes_empty (zstd : ZstdDecompress) :
    (UiAccountData.legacyBinary "").decode zstd = some [] ∧
    (UiAccountData.binary "" UiAccountEncoding.base58).decode zstd = some [] ∧
    (UiAccountData.binary "" UiAccountEncoding.base64).decode zstd = some [] ∧
    (UiAccountData.legacyBinary "").space zstd = some 0 ∧
    (UiAccountData.binary "" UiAccountEncoding.base58).space zstd = some 0 ∧
    (UiAccountData.binary "" UiAccountEncoding.base64).space zstd = some 0 :=
  ⟨rfl, rfl, rfl, rfl, rfl, rfl⟩

/-! ### C2: `space` refines length-of-`decode` on non-`Structured` shapes -/

/-- C2: on every container that is not the `Structured` (`Json`) shape, the
independently implemented `space` function returns exactly
`(decode container).map length`: it succeeds precisely when `decode`
succeeds and then equals the decoded length. -/
theorem space_eq_length_of_decode (zstd : ZstdDecompress) (c : UiAccountData)
    (h : c.isJsonParsed = false) :
    c.space zstd = (c.decode zstd).map List.length := by
  cases c with
  | json p => simp [UiAccountData.isJsonParsed] at h
  | legacyBinary blob => rfl
  | binary blob encoding =>
    cases encoding with
    | binary => rfl
    | base58 => rfl
    | base64 => rfl
    | jsonParsed => rfl
    | base64Zstd =>
      show ((base64Decode blob).bind zstd).map List.length =
        ((base64Decode blob).bind zstd).map List.length
      rfl

theorem space_eq_length_of_decode_witness :
    (UiAccountData.binary "dGVzdCBkYXRh" UiAccountEncoding.base64).isJsonParsed
        = false ∧
    (UiAccountData.binary "dGVzdCBkYXRh" UiAccountEncoding.base64).space
        (fun _ => none) =
      ((UiAccountData.binary "dGVzdCBkYXRh" UiAccountEncoding.base64).decode
        (fun _ => none)).map List.length :=
  ⟨rfl, space_eq_length_of_decode (fun _ => none)
    (UiAccountData.binary "dGVzdCBkYXRh" UiAccountEncoding.base64) rfl⟩

/-! ### C3, C4, C5: the reconstruction modes -/

/-- C3: on a snapshot whose container is `Structured` (`Json`) and whose
owner string parses, `try_decode_with_fallback` returns the account built
with empty data and the snapshot's balance, owner, executable flag and rent
epoch, paired with `wasStructured = true`. -/
theorem fallback_structured (zstd : ZstdDecompress) (u : UiAccount)
    (p : ParsedAccount) (pk : List Nat)
    (hdata : u.data = UiAccountData.json p)
    (howner : pubkeyFromStr u.owner = some pk) :
    UiAccount.tryDecodeWithFallback zstd u =
      some (Account.create u.lamports [] pk u.executable u.rentEpoch, true) := by
  unfold UiAccount.tryDecodeWithFallback
  rw [howner, hdata]
  rfl

theorem fallback_structured_witness :
    ({ lamports := 2039280,
       data := UiAccountData.json ⟨"spl-token", JsonValue.null, 165⟩,
       owner := "11111111111111111111111111111111",
       executable := false, rentEpoch := 361, space := some 165 } :
        UiAccount).data = UiAccountData.json ⟨"spl-token", JsonValue.null, 165⟩ ∧
    pubkeyFromStr "11111111111111111111111111111111" =
      some (List.replicate 32 0) ∧
    UiAccount.tryDecodeWithFallback (fun _ => none)
      { lamports := 2039280,
        data := UiAccountData.json ⟨"spl-token", JsonValue.null, 165⟩,
        owner := "11111111111111111111111111111111",
        executable := false, rentEpoch := 361, space := some 165 } =
      some (Account.create 2039280 [] (List.replicate 32 0) false 361, true) :=
  ⟨rfl, rfl,
    fallback_structured (fun _ => none)
      { lamports := 2039280,
        data := UiAccountData.json ⟨"spl-token", JsonValue.null, 165⟩,
        owner := "11111111111111111111111111111111",
        executable := false, rentEpoch := 361, space := some 165 }
      ⟨"spl-token", JsonValue.null, 165⟩ (List.replicate 32 0) rfl rfl⟩

/-- C4: on a snapshot whose container is not `Structured` and whose bytes
fail to decode, `try_decode_with_fallback` returns `none` instead of
fabricating an empty-data account. -/
theorem fallback_none_of_decode_failure (zstd : ZstdDecompress) (u : UiAccount)
    (hdec : u.data.decode zstd = none) (hnj : u.data.isJsonParsed = false) :
    UiAccount.tryDecodeWithFallback zstd u = none := by
  unfold UiAccount.tryDecodeWithFallback
  cases howner : pubkeyFromStr u.owner with
  | none => rfl
  | some pk => rw [hdec, hnj]; rfl

theorem fallback_none_of_decode_failure_witness :
    (UiAccountData.binary "not-valid-b64!!" UiAccountEncoding.base64).decode
        (fun _ => none) = none ∧
    (UiAccountData.binary "not-valid-b64!!" UiAccountEncoding.base64).isJsonParsed
        = false ∧
    UiAccount.tryDecodeWithFallback (fun _ => none)
      { lamports := 1,
        data := UiAccountData.binary "not-valid-b64!!" UiAccountEncoding.base64,
        owner := "11111111111111111111111111111111",
        executable := false, rentEpoch := 0, space := none } = none :=
  ⟨rfl, rfl,
    fallback_none_of_decode_failure (fun _ => none)
      { lamports := 1,
        data := UiAccountData.binary "not-valid-b64!!" UiAccountEncoding.base64,
        owner := "11111111111111111111111111111111",
        executable := false, rentEpoch := 0, space := none } rfl rfl⟩

/-- C5: when the owner string does not parse as an address, both `decode`
and `try_decode_with_fallback` return `none`, whatever the data container
holds and whether or not its bytes decode. -/
theorem owner_parse_failure_none (zstd : ZstdDecompress) (u : UiAccount)
    (h : pubkeyFromStr u.owner = none) :
    UiAccount.decode zstd u = none ∧
    UiAccount.tryDecodeWithFallback zstd u = none := by
  constructor
  · unfold UiAccount.decode
    cases hd : u.data.decode zstd with
    | none => rfl
    | some d => rw [h]
  · unfold UiAccount.tryDecodeWithFallback
    rw [h]

theorem owner_parse_failure_none_witness :
    pubkeyFromStr "bad!!owner" = none ∧
    (UiAccount.decode (fun _ => none)
      { lamports := 5, data := UiAccountData.legacyBinary "",
        owner := "bad!!owner", executable := true, rentEpoch := 7,
        space := none } = none ∧
    UiAccount.tryDecodeWithFallback (fun _ => none)
      { lamports := 5, data := UiAccountData.legacyBinary "",
        owner := "bad!!owner", executable := true, rentEpoch := 7,
        space := none } = none) :=
  ⟨rfl,
    owner_parse_failure_none (fun _ => none)
      { lamports := 5, data := UiAccountData.legacyBinary "",
        owner := "bad!!owner", executable := true, rentEpoch := 7,
        space := none } rfl⟩

/-! ### C7: the base64 round trip -/

theorem b64Val_b64Char_fin : ∀ v : Fin 64, b64Val (b64Char v.val) = some v.val := by
  decide

theorem b64Val_b64Char (v : Nat) (h : v < 64) : b64Val (b64Char v) = some v :=
  b64Val_b64Char_fin ⟨v, h⟩

theorem b64Char_ne_pad_fin : ∀ v : Fin 64, b64Char v.val ≠ '=' := by
  decide

theorem b64Char_ne_pad (v : Nat) (h : v < 64) : b64Char v ≠ '=' :=
  b64Char_ne_pad_fin ⟨v, h⟩

theorem b64_decode_encode :
    ∀ b : List Nat, (∀ x ∈ b, x < 256) →
      b64DecodeChars (b64EncodeBytes b) = some b
  | [], _ => rfl
  | [b0], h => by
    have hb0 : b0 < 256 := h b0 (by simp)
    have e0 := b64Val_b64Char (b0 / 4) (by omega)
    have e1 := b64Val_b64Char (b0 % 4 * 16) (by omega)
    have key : b0 / 4 * 4 + b0 % 4 * 16 / 16 = b0 := by omega
    simp [b64EncodeBytes, b64DecodeChars, e0, e1, Nat.mul_mod_left]
    omega
  | [b0, b1], h => by
    have hb0 : b0 < 256 := h b0 (by simp)
    have hb1 : b1 < 256 := h b1 (by simp)
    have e0 := b64Val_b64Char (b0 / 4) (by omega)
    have e1 := b64Val_b64Char (b0 % 4 * 16 + b1 / 16) (by omega)
    have e2 := b64Val_b64Char (b1 % 16 * 4) (by omega)
    have n2 := b64Char_ne_pad (b1 % 16 * 4) (by omega)
    have key1 : b0 / 4 * 4 + (b0 % 4 * 16 + b1 / 16) / 16 = b0 := by omega
    have key2 : (b0 % 4 * 16 + b1 / 16) % 16 * 16 + b1 % 16 * 4 / 4 = b1 := by
      omega
    simp [b64EncodeBytes, b64DecodeChars, e0, e1, e2, n2, Nat.mul_mod_left]
    omega
  | b0 :: b1 :: b2 :: rest, h => by
    have hb0 : b0 < 256 := h b0 (by simp)
    have hb1 : b1 < 256 := h b1 (by simp)
    have hb2 : b2 < 256 := h b2 (by simp)
    have ih := b64_decode_encode rest fun x hx => h x (by simp [hx])
    have e0 := b64Val_b64Char (b0 / 4) (by omega)
    have e1 := b64Val_b64Char (b0 % 4 * 16 + b1 / 16) (by omega)
    have e2 := b64Val_b64Char (b1 % 16 * 4 + b2 / 64) (by omega)
    have e3 := b64Val_b64Char (b2 % 64) (by omega)
    have n2 := b64Char_ne_pad (b1 % 16 * 4 + b2 / 64) (by omega)
    have n3 := b64Char_ne_pad (b2 % 64) (by omega)
    have key1 : b0 / 4 * 4 + (b0 % 4 * 16 + b1 / 16) / 16 = b0 := by omega
    have key2 : (b0 % 4 * 16 + b1 / 16) % 16 * 16 +
        (b1 % 16 * 4 + b2 / 64) / 4 = b1 := by omega
    have key3 : (b1 % 16 * 4 + b2 / 64) % 4 * 64 + b2 % 64 = b2 := by omega
    simp [b64EncodeBytes, b64DecodeChars, e0, e1, e2, e3, n2, n3, ih]
    omega

/-- C7: decoding an `Encoded` container that holds the standard base64
encoding of a byte sequence `b` with tag `Base64` yields `b` back. -/
theorem base64_roundtrip (zstd : ZstdDecompress) (b : List Nat)
    (h : ∀ x ∈ b, x < 256) :
    (UiAccountData.binary (base64Encode b) UiAccountEncoding.base64).decode
      zstd = some b :=
  b64_decode_encode b h

theorem base64_roundtrip_witness :
    (∀ x ∈ [116, 101, 115, 116, 32, 100, 97, 116, 97], x < 256) ∧
    (UiAccountData.binary
        (base64Encode [116, 101, 115, 116, 32, 100, 97, 116, 97])
        UiAccountEncoding.base64).decode (fun _ => none) =
      some [116, 101, 115, 116, 32, 100, 97, 116, 97] :=
  ⟨by decide,
    base64_roundtrip (fun _ => none)
      [116, 101, 115, 116, 32, 100, 97, 116, 97] (by decide)⟩

/-! ### C8: the base58 round trip -/

theorem b58Val_one : b58Val '1' = some 0 := rfl

theorem b58Val_b58Char_fin : ∀ v : Fin 58, b58Val (b58Char v.val) = some v.val := by
  decide

theorem b58Val_b58Char (v : Nat) (h : v < 58) : b58Val (b58Char v) = some v :=
  b58Val_b58Char_fin ⟨v, h⟩

theorem b58Char_ne_one_fin : ∀ v : Fin 58, v.val ≠ 0 → b58Char v.val ≠ '1' := by
  decide

theorem b58Char_ne_one (v : Nat) (h : v < 58) (h0 : v ≠ 0) : b58Char v ≠ '1' :=
  b58Char_ne_one_fin ⟨v, h⟩ h0

theorem getLast_eq_of_concat {α : Type} :
    ∀ (L : List α) (a : α) (h : L ++ [a] ≠ []), (L ++ [a]).getLast h = a
  | [], _, _ => rfl
  | x :: xs, a, _ => by
    show (x :: (xs ++ [a])).getLast (by simp) = a
    rw [List.getLast_cons (by simp : xs ++ [a] ≠ [])]
    exact getLast_eq_of_concat xs a (by simp)

theorem getLast_eq_of_eq_concat {α : Type} {l L : List α} {a : α}
    (heq : l = L ++ [a]) (h : l ≠ []) : l.getLast h = a := by
  subst heq
  exact getLast_eq_of_concat L a h

theorem decodeB58Digits_map (L : List Nat) (h : ∀ d ∈ L, d < 58) :
    decodeB58Digits (L.map b58Char) = some L := by
  induction L with
  | nil => rfl
  | cons d ds ih =>
    have hd : d < 58 := h d (by simp)
    simp [decodeB58Digits, b58Val_b58Char d hd,
      ih fun x hx => h x (by simp [hx])]

theorem decodeB58Digits_ones (k : Nat) (cs : List Char) (ds : List Nat)
    (h : decodeB58Digits cs = some ds) :
    decodeB58Digits (List.replicate k '1' ++ cs) =
      some (List.replicate k 0 ++ ds) := by
  induction k with
  | zero => simpa using h
  | succ k ih => simp [List.replicate_succ, decodeB58Digits, b58Val_one, ih]

theorem countLeadingOnes_replicate (k : Nat) (cs : List Char) :
    countLeadingOnes (List.replicate k '1' ++ cs) = k + countLeadingOnes cs := by
  induction k with
  | zero => simp
  | succ k ih =>
    simp [List.replicate_succ, countLeadingOnes, ih]
    omega

theorem ofDigitsLE_append_replicate_zero (base : Nat) (L : List Nat) (k : Nat) :
    ofDigitsLE base (L ++ List.replicate k 0) = ofDigitsLE base L := by
  induction L with
  | nil =>
    simp only [List.nil_append]
    induction k with
    | zero => rfl
    | succ k ih => simp [List.replicate_succ, ofDigitsLE, ih]
  | cons d ds ih => simp [ofDigitsLE, ih]

theorem bs58EncodeChars_cons_zero (b : List Nat) :
    bs58EncodeChars (0 :: b) = '1' :: bs58EncodeChars b := by
  unfold bs58EncodeChars
  have h1 : countLeadingZeroBytes (0 :: b) = countLeadingZeroBytes b + 1 := by
    simp [countLeadingZeroBytes]
  have h2 : ofDigitsLE 256 (0 :: b).reverse = ofDigitsLE 256 b.reverse := by
    rw [List.reverse_cons]
    simpa using ofDigitsLE_append_replicate_zero 256 b.reverse 1
  rw [h1, h2, List.replicate_succ]
  simp

theorem bs58DecodeChars_cons_one (cs : List Char) :
    bs58DecodeChars ('1' :: cs) = (bs58DecodeChars cs).map fun l => 0 :: l := by
  cases h : decodeB58Digits cs with
  | none =>
    have h' : decodeB58Digits ('1' :: cs) = none := by
      simp [decodeB58Digits, b58Val_one, h]
    simp [bs58DecodeChars, h, h']
  | some ds =>
    have h' : decodeB58Digits ('1' :: cs) = some (0 :: ds) := by
      simp [decodeB58Digits, b58Val_one, h]
    have hc : countLeadingOnes ('1' :: cs) = countLeadingOnes cs + 1 := by
      simp [countLeadingOnes]
    have ho : ofDigitsLE 58 (ds.reverse ++ [0]) = ofDigitsLE 58 ds.reverse := by
      simpa using ofDigitsLE_append_replicate_zero 58 ds.reverse 1
    simp [bs58DecodeChars, h, h', hc, ho, List.replicate_succ]

theorem bs58_decode_encode_nonzero (r : Nat) (rs : List Nat) (hr : r ≠ 0)
    (h : ∀ x ∈ r :: rs, x < 256) :
    bs58DecodeChars (bs58EncodeChars (r :: rs)) = some (r :: rs) := by
  have hclz : countLeadingZeroBytes (r :: rs) = 0 := by
    simp [countLeadingZeroBytes, hr]
  set n := ofDigitsLE 256 (r :: rs).reverse with hn
  have hofd : n = Nat.ofDigits 256 (r :: rs).reverse :=
    ofDigitsLE_eq_ofDigits 256 (r :: rs).reverse
  have hmem : ∀ l ∈ (r :: rs).reverse, l < 256 := fun l hl =>
    h l (List.mem_reverse.mp hl)
  have hlast : ∀ hne : (r :: rs).reverse ≠ [],
      ((r :: rs).reverse).getLast hne ≠ 0 := by
    intro hne
    rw [getLast_eq_of_eq_concat (List.reverse_cons r rs) hne]
    exact hr
  have hdig256 : Nat.digits 256 n = (r :: rs).reverse := by
    rw [hofd]
    exact Nat.digits_ofDigits 256 (by norm_num) _ hmem hlast
  have hn0 : n ≠ 0 := by
    intro h0
    rw [h0] at hdig256
    simp at hdig256
  have hds_lt : ∀ d ∈ Nat.digits 58 n, d < 58 := fun d hd =>
    Nat.digits_lt_base (by norm_num) hd
  have hds_ne : Nat.digits 58 n ≠ [] := Nat.digits_ne_nil_iff_ne_zero.mpr hn0
  obtain ⟨L', a, hsplit⟩ :=
    (List.eq_nil_or_concat' (Nat.digits 58 n)).resolve_left hds_ne
  have ha_lt : a < 58 := hds_lt a (by simp [hsplit])
  have ha_ne : a ≠ 0 := by
    have hgl := Nat.getLast_digit_ne_zero 58 hn0
    intro ha0
    apply hgl
    rw [getLast_eq_of_eq_concat hsplit (Nat.digits_ne_nil_iff_ne_zero.mpr hn0),
      ha0]
  have henc : bs58EncodeChars (r :: rs) =
      (Nat.digits 58 n).reverse.map b58Char := by
    unfold bs58EncodeChars
    rw [hclz, ← hn, digitsLE_eq_digits 58 n (by norm_num)]
    simp
  have hrev : (Nat.digits 58 n).reverse = a :: L'.reverse := by
    rw [hsplit]
    simp
  have hdec : decodeB58Digits ((Nat.digits 58 n).reverse.map b58Char) =
      some (Nat.digits 58 n).reverse :=
    decodeB58Digits_map (Nat.digits 58 n).reverse fun d hd =>
      hds_lt d (List.mem_reverse.mp hd)
  have hcnt : countLeadingOnes ((Nat.digits 58 n).reverse.map b58Char) = 0 := by
    rw [hrev]
    simp [countLeadingOnes, b58Char_ne_one a ha_lt ha_ne]
  rw [henc]
  unfold bs58DecodeChars
  rw [hdec, hcnt]
  simp only [List.replicate, List.nil_append, List.reverse_reverse]
  rw [natToBytesBE, digitsLE_eq_digits 256 _ (by norm_num),
    ofDigitsLE_eq_ofDigits, Nat.ofDigits_digits, hdig256]
  simp

theorem bs58_decode_encode (b : List Nat) (h : ∀ x ∈ b, x < 256) :
    bs58DecodeChars (bs58EncodeChars b) = some b := by
  induction b with
  | nil => rfl
  | cons r rs ih =>
    by_cases hr : r = 0
    · subst hr
      rw [bs58EncodeChars_cons_zero, bs58DecodeChars_cons_one,
        ih fun x hx => h x (List.mem_cons_of_mem _ hx)]
      rfl
    · exact bs58_decode_encode_nonzero r rs hr h

/-- C8: decoding a `LegacyBinary` container that holds the base58 encoding
of a byte sequence `b` yields `b` back: `LegacyBinary` is always read as
base58. -/
theorem base58_roundtrip (zstd : ZstdDecompress) (b : List Nat)
    (h : ∀ x ∈ b, x < 256) :
    (UiAccountData.legacyBinary (bs58Encode b)).decode zstd = some b :=
  bs58_decode_encode b h

theorem base58_roundtrip_witness :
    (∀ x ∈ [0, 116, 101, 115, 116], x < 256) ∧
    (UiAccountData.legacyBinary
        (bs58Encode [0, 116, 101, 115, 116])).decode (fun _ => none) =
      some [0, 116, 101, 115, 116] :=
  ⟨by decide,
    base58_roundtrip (fun _ => none) [0, 116, 101, 115, 116] (by decide)⟩

end AgaveAccountDecoder
